import Mathlib

set_option maxRecDepth 100000

/-!
Verification of the lbsd storage engine (single-table paged B-tree store).

The definitions below are a shallow embedding of the Rust sources
`src/main.rs`, `src/table.rs` and `src/tree.rs`:
* bytes are `Nat`s (every byte produced by the engine is `< 256`; the
  theorems carry the `u8`/`u32` range bounds that Rust enforces by type);
* fallible code (Rust `panic!` / `expect` / `unimplemented!` /
  `unreachable!`) is modelled with `Option`, `none` standing for a panic;
* the Pager's slot table and backing file are modelled as functions from
  page numbers, mutation as explicit state passing;
* Rust `while` loops are modelled by structural recursion on an explicit
  iteration bound (`fuel`) chosen at the call site to dominate the loop's
  variant, so that every definition evaluates by `decide` / `rfl`.
-/

/-! ## Size constants (src/main.rs lines 174-187, src/tree.rs lines 83-93, 136-138) -/

def COLUMN_USERNAME_SIZE : Nat := 32
def COLUMN_EMAIL_SIZE : Nat := 255
def ID_SIZE : Nat := 4
def ROW_SIZE : Nat := ID_SIZE + COLUMN_USERNAME_SIZE + COLUMN_EMAIL_SIZE
def PAGE_SIZE : Nat := 4096
def TABLE_MAX_PAGES : Nat := 100

/-- Size constants of `BTreeLeafNode` (src/tree.rs lines 83-90). Note that the
source's `NODE_HEADER_SIZE` is `1 + 1 + 4 = 6` (the 4-byte `parent` field the
serializer also writes is not counted there). -/
def NODE_TYPE_SIZE : Nat := 1
def IS_ROOT_SIZE : Nat := 1
def NUM_CELLS_SIZE : Nat := 4
def NODE_HEADER_SIZE : Nat := NODE_TYPE_SIZE + IS_ROOT_SIZE + NUM_CELLS_SIZE
def NODE_KEY_SIZE : Nat := 4
def NODE_CELL_SIZE : Nat := NODE_KEY_SIZE + ROW_SIZE
def NODE_SPACE_FOR_CELLS : Nat := PAGE_SIZE - NODE_HEADER_SIZE
def NODE_MAX_CELLS : Nat := NODE_SPACE_FOR_CELLS / NODE_CELL_SIZE

/-- Size constants of `BTreeInternalNode` (src/tree.rs lines 136-138). -/
def INTERNAL_SPACE_FOR_CELLS : Nat := PAGE_SIZE - 1 - 1 - 4 - 4 - 4
def INTERNAL_CELL_SIZE : Nat := 8
def INTERNAL_MAX_CELLS : Nat := INTERNAL_SPACE_FOR_CELLS / INTERNAL_CELL_SIZE

/-- Split partition constants (src/table.rs lines 189-190). -/
def LEAF_NODE_RIGHT_SPLIT_COUNT : Nat := (NODE_MAX_CELLS + 1) / 2
def LEAF_NODE_LEFT_SPLIT_COUNT : Nat := (NODE_MAX_CELLS + 1) - LEAF_NODE_RIGHT_SPLIT_COUNT

example : NODE_MAX_CELLS = 13 := by decide
example : LEAF_NODE_LEFT_SPLIT_COUNT = 7 ∧ LEAF_NODE_RIGHT_SPLIT_COUNT = 7 := by decide
example : INTERNAL_MAX_CELLS = 510 := by decide

/-! ## Byte-level primitives

`byteorder`'s little-endian `u32` writes/reads and `Read::read` on a byte
slice (which fills as many bytes as are available and leaves the rest of the
destination buffer untouched, i.e. zero for freshly zeroed buffers). -/

/-- Little-endian encoding of a `u32` (`write_u32::<LittleEndian>`). -/
def u32LE (n : Nat) : List Nat :=
  [n % 256, n / 256 % 256, n / 65536 % 256, n / 16777216 % 256]

/-- Reading one byte (`read_u8`); `none` is the `Err` that the callers
`expect` (panic) on. -/
def readU8 : List Nat → Option (Nat × List Nat)
  | [] => none
  | b :: rest => some (b, rest)

/-- Reading a little-endian `u32` (`read_u32::<LittleEndian>`); `none` is the
`Err` that the callers `expect` (panic) on. -/
def readU32 : List Nat → Option (Nat × List Nat)
  | b0 :: b1 :: b2 :: b3 :: rest =>
      some (b0 + 256 * b1 + 65536 * b2 + 16777216 * b3, rest)
  | _ => none

/-- `Read::read` into a zeroed buffer of length `n`: copies
`min n buf.length` bytes, the rest of the destination stays zero. Returns
the filled buffer and the remaining input. This never fails. -/
def readExact (n : Nat) (buf : List Nat) : List Nat × List Nat :=
  (buf.take n ++ List.replicate (n - buf.length) 0, buf.drop n)

/-- The page buffer `vec![0u8; PAGE_SIZE]` after `file.read` copied the bytes
available at the page's offset into its front (src/table.rs lines 137-147). -/
def padToPage (bytes : List Nat) : List Nat :=
  bytes.take PAGE_SIZE ++ List.replicate (PAGE_SIZE - bytes.length) 0

/-! ## Row (src/main.rs lines 122-172) -/

structure Row where
  id : Nat
  username : List Nat
  email : List Nat
deriving DecidableEq, Repr

/-- Validity carried by the Rust types: `id : u32`,
`username : [u8; 32]`, `email : [u8; 255]`. -/
def Row.WF (r : Row) : Prop :=
  r.id < 2 ^ 32 ∧ r.username.length = COLUMN_USERNAME_SIZE ∧
    r.email.length = COLUMN_EMAIL_SIZE

instance (r : Row) : Decidable r.WF := by unfold Row.WF; infer_instance

/-- `Row::serialize` (src/main.rs lines 154-158). -/
def Row.serialize (r : Row) : List Nat := u32LE r.id ++ r.username ++ r.email

/-- `Row::deserialize` (src/main.rs lines 159-171): reads the id (the
`unwrap` panics if fewer than 4 bytes remain), then fills the fixed-width
zeroed `username` and `email` buffers with whatever bytes remain. -/
def Row.deserialize (input : List Nat) : Option Row := do
  let (id, rest) ← readU32 input
  let (username, rest) := readExact COLUMN_USERNAME_SIZE rest
  let (email, _) := readExact COLUMN_EMAIL_SIZE rest
  pure { id := id, username := username, email := email }

def Row.defaultRow : Row :=
  { id := 0, username := List.replicate COLUMN_USERNAME_SIZE 0,
    email := List.replicate COLUMN_EMAIL_SIZE 0 }

/-! ## Node structures (src/tree.rs) -/

inductive NodeType where
  | Leaf
  | Internal
deriving DecidableEq, Repr

/-- Leaf cell `KV` (src/tree.rs lines 265-269). -/
structure KV where
  key : Nat
  value : Row
deriving DecidableEq, Repr

/-- Internal cell `KC` (src/tree.rs lines 183-187). -/
structure KC where
  child : Nat
  key : Nat
deriving DecidableEq, Repr

/-- `BTreeLeafNode` (src/tree.rs lines 34-41). `is_root` is the raw `u8`
flag. -/
structure BTreeLeafNode where
  node_type : NodeType
  is_root : Nat
  parent : Nat
  num_cells : Nat
  key_values : List KV
deriving DecidableEq, Repr

/-- `BTreeInternalNode` (src/tree.rs lines 107-115). -/
structure BTreeInternalNode where
  node_type : NodeType
  is_root : Nat
  parent : Nat
  num_keys : Nat
  right_child : Nat
  key_children : List KC
deriving DecidableEq, Repr

/-- `BTreeInternalNode::new(is_root, parent)` (src/tree.rs lines 118-127); the
`Default` instance is `new(0, 0)` (lines 177-181). -/
def BTreeInternalNode.new (is_root parent : Nat) : BTreeInternalNode :=
  { node_type := NodeType.Internal, is_root := is_root, parent := parent,
    num_keys := 0, right_child := 0, key_children := [] }

inductive BTreeNode where
  | Leaf (node : BTreeLeafNode)
  | Internal (node : BTreeInternalNode)
deriving DecidableEq, Repr

/-- `BTreeNode::is_root` (src/tree.rs lines 222-227). -/
def BTreeNode.is_root : BTreeNode → Nat
  | .Leaf n => n.is_root
  | .Internal n => n.is_root

/-- `BTreeNode::get_parent` (src/tree.rs lines 229-234). -/
def BTreeNode.get_parent : BTreeNode → Nat
  | .Leaf n => n.parent
  | .Internal n => n.parent

/-- `BTreeLeafNode::max_key` (src/tree.rs lines 99-104): the key of the last
cell, or 0 for an empty leaf. -/
def BTreeLeafNode.max_key (n : BTreeLeafNode) : Nat :=
  match n.key_values.getLast? with
  | some kv => kv.key
  | none => 0

/-- `BTreeLeafNode::insert_at` (src/tree.rs lines 73-81): `Vec::insert` at
`index` (the source's capacity check only logs). Rust panics when
`index > len`; `List.insertIdx` then leaves the list unchanged, so theorems
carry `index ≤ len` where it matters. -/
def BTreeLeafNode.insert_at (n : BTreeLeafNode) (index : Nat) (key : Nat)
    (value : Row) : BTreeLeafNode :=
  { n with key_values := n.key_values.insertIdx index ⟨key, value⟩,
           num_cells := n.num_cells + 1 }

/-! ## Binary searches

Both leaf search loops (src/table.rs lines 336-360 within
`Cursor::find_insert_position`, and the identical loop of
`TCursor::find_insert_position`, src/main.rs lines 577-601) and the internal
search loop (`BTreeInternalNode::find_insert_position`, src/tree.rs lines
160-174) are `while left != right` loops. Starting from `left = 0`,
`right = length` both loops keep `left ≤ right`, so the guard is equivalent
to `left < right`; the `fuel` argument bounds the number of iterations
(`right - left` strictly decreases each iteration, so any
`fuel ≥ right - left` is enough). -/

/-- The leaf-search loop. Returns the final `cursor_opts.cell_num` together
with the final value of `left` (the caller computes `end_of_table` from the
latter). On the `key == current_key` break the cell number is `index` while
`left` keeps its current value; otherwise both are the final `left`. -/
def leafSearchGo (keys : List Nat) (key : Nat) : Nat → Nat → Nat → Nat × Nat
  | 0, left, _ => (left, left)
  | fuel + 1, left, right =>
    if left < right then
      let index := (left + right) / 2
      let current := keys.getD index 0
      if key = current then (index, left)
      else if key < current then leafSearchGo keys key fuel left index
      else leafSearchGo keys key fuel (index + 1) right
    else (left, left)

/-- The leaf branch of `Cursor::find_insert_position` (src/table.rs lines
335-370) and the body of `TCursor::find_insert_position` (src/main.rs lines
577-610): search `0 .. num_cells`, then `end_of_table := num_cells == left`.
Returns `(cell_num, end_of_table)`. -/
def leafFindInsertPosition (page : BTreeLeafNode) (key : Nat) : Nat × Bool :=
  let keys := page.key_values.map KV.key
  let r := leafSearchGo keys key page.num_cells 0 page.num_cells
  (r.1, page.num_cells = r.2)

/-- The internal-search loop of `BTreeInternalNode::find_insert_position`
(src/tree.rs lines 160-174): a plain lower bound without the equality
break. Returns the final `left`. -/
def internalSearchGo (keys : List Nat) (key : Nat) : Nat → Nat → Nat → Nat
  | 0, left, _ => left
  | fuel + 1, left, right =>
    if left < right then
      let index := (left + right) / 2
      let key_to_right := keys.getD index 0
      if key ≤ key_to_right then internalSearchGo keys key fuel left index
      else internalSearchGo keys key fuel (index + 1) right
    else left

/-- `BTreeInternalNode::find_insert_position` (src/tree.rs lines 160-174). -/
def BTreeInternalNode.find_insert_position (n : BTreeInternalNode)
    (key : Nat) : Nat :=
  internalSearchGo (n.key_children.map KC.key) key n.key_children.length 0
    n.key_children.length

/-- `BTreeInternalNode::find_key` (src/tree.rs lines 150-158). The guard is
the source's `self.key_children.len() < index` verbatim; in its (dead) `then`
branch the source indexes `self.key_children[index]` with `index` out of
bounds and reads the `.key` field — `getD` with a dummy cell stands in for
the would-be panic. -/
def BTreeInternalNode.find_key (n : BTreeInternalNode) (key : Nat) : Nat :=
  let index := n.find_insert_position key
  if n.key_children.length < index then (n.key_children.getD index ⟨0, 0⟩).key
  else n.right_child

/-- `BTreeInternalNode::insert` (src/tree.rs lines 139-147); `none` is the
`unimplemented!` panic when the node is full. -/
def BTreeInternalNode.insert (n : BTreeInternalNode) (key : Nat)
    (child : Nat) : Option BTreeInternalNode :=
  if n.num_keys ≥ INTERNAL_MAX_CELLS then none
  else
    let index := n.find_insert_position key
    some { n with key_children := n.key_children.insertIdx index ⟨child, key⟩,
                  num_keys := n.num_keys + 1 }

/-! ## Page serialization (src/tree.rs lines 190-220) -/

/-- `BTreeNode::serialize`: header, cells, then zero padding up to
`PAGE_SIZE` (no padding if the content is already that long). The tag byte
is the constant `NodeType::Leaf as u8` / `NodeType::Internal as u8` of the
matched variant. -/
def BTreeNode.serialize (n : BTreeNode) : List Nat :=
  let content :=
    match n with
    | .Leaf page =>
        0 :: page.is_root :: (u32LE page.parent ++ u32LE page.num_cells ++
          page.key_values.flatMap (fun kv => u32LE kv.key ++ kv.value.serialize))
    | .Internal page =>
        1 :: page.is_root :: (u32LE page.parent ++ u32LE page.num_keys ++
          u32LE page.right_child ++
          page.key_children.flatMap (fun kc => u32LE kc.child ++ u32LE kc.key))
  content ++ List.replicate (PAGE_SIZE - content.length) 0

/-! ## Page deserialization (`impl From<&[u8]> for BTreeNode`, src/tree.rs
lines 271-338). A `none` result models one of the source's panics
(`expect` on a short read, or an unknown node-type byte). -/

/-- The leaf cell loop (src/tree.rs lines 317-326): `num_cells` times, read a
`u32` key and then up to `ROW_SIZE` bytes into a zeroed row buffer. -/
def readLeafCells : Nat → List Nat → Option (List KV × List Nat)
  | 0, buf => some ([], buf)
  | n + 1, buf => do
    let (key, buf) ← readU32 buf
    let (rowBuf, buf) := readExact ROW_SIZE buf
    let value ← Row.deserialize rowBuf
    let (rest, buf) ← readLeafCells n buf
    pure (⟨key, value⟩ :: rest, buf)

/-- The internal cell loop (src/tree.rs lines 297-303). -/
def readInternalCells : Nat → List Nat → Option (List KC × List Nat)
  | 0, buf => some ([], buf)
  | n + 1, buf => do
    let (child, buf) ← readU32 buf
    let (key, buf) ← readU32 buf
    let (rest, buf) ← readInternalCells n buf
    pure (⟨child, key⟩ :: rest, buf)

/-- `BTreeNode::from::<&[u8]>` (src/tree.rs lines 271-338). A buffer shorter
than 6 bytes is replaced by the literal fallback `[1, 1, 0, 0, 0, 0, 0, 0,
0, 0]` before any parsing happens. -/
def BTreeNode.fromBytes (buf : List Nat) : Option BTreeNode := do
  let buf := if buf.length < 6 then [1, 1, 0, 0, 0, 0, 0, 0, 0, 0] else buf
  let (typeByte, buf) ← readU8 buf
  let (is_root, buf) ← readU8 buf
  let (parent, buf) ← readU32 buf
  if typeByte = 0 then
    let (num_cells, buf) ← readU32 buf
    let (key_values, _) ← readLeafCells num_cells buf
    pure (BTreeNode.Leaf
      { node_type := NodeType.Leaf, is_root := is_root, parent := parent,
        num_cells := num_cells, key_values := key_values })
  else if typeByte = 1 then
    let (num_keys, buf) ← readU32 buf
    let (right_child, buf) ← readU32 buf
    let (key_children, _) ← readInternalCells num_keys buf
    pure (BTreeNode.Internal
      { node_type := NodeType.Internal, is_root := is_root, parent := parent,
        num_keys := num_keys, right_child := right_child,
        key_children := key_children })
  else none

/-! ## Pager state (src/table.rs lines 57-291)

`pages` is the slot table `Vec<Option<Page>>` (indexed by page number),
`file` gives the bytes stored at offset `page_num * PAGE_SIZE` of the backing
file (the empty list beyond the end of the file, so a read there leaves the
zeroed page buffer untouched), `num_pages` is the allocation counter.
src/main.rs lines 191-304 define a `Pager` with the identical slot table,
`get_page`, `get_page_mut`, `flush` and page-count logic; the single model
below stands for both. -/

structure Pager where
  pages : Nat → Option BTreeNode
  file : Nat → List Nat
  num_pages : Nat

/-- Overwriting one slot of the page table. -/
def Pager.setPage (p : Pager) (n : Nat) (node : BTreeNode) : Pager :=
  { p with pages := fun m => if m = n then some node else p.pages m }

/-- `Pager::get_page` (src/table.rs lines 109-151): return the cached node,
or read the page's bytes into a zeroed `PAGE_SIZE` buffer, deserialize,
cache and return. The Rust function's `Option` result is always `Some` once
the slot is filled; a `none` here models the panic inside
`BTreeNode::from` on an unknown node-type byte. -/
def Pager.getPage (p : Pager) (n : Nat) : Pager × Option BTreeNode :=
  match p.pages n with
  | some node => (p, some node)
  | none =>
    match BTreeNode.fromBytes (padToPage (p.file n)) with
    | some node => (p.setPage n node, some node)
    | none => (p, none)

/-- `Pager::new_page_num` (src/table.rs lines 280-284). -/
def Pager.newPageNum (p : Pager) : Pager × Nat :=
  ({ p with num_pages := p.num_pages + 1 }, p.num_pages)

/-- `Pager::new_internal_page_mut` (src/table.rs lines 101-107): overwrite
slot `n` with `BTreeInternalNode::default()`. -/
def Pager.newInternalPageMut (p : Pager) (n : Nat) :
    Pager × BTreeInternalNode :=
  (p.setPage n (BTreeNode.Internal (BTreeInternalNode.new 0 0)),
   BTreeInternalNode.new 0 0)

/-! ## The split algorithm (`Pager::split_and_insert`, src/table.rs lines
192-277) -/

/-- Step of `split_and_insert` handling the parent. Root case (lines
229-243): allocate a fresh page number, overwrite it with a default internal
node, set its root flag/parent/right child, insert the separator cell, and
repoint the old leaf's parent at it. Non-root case (lines 244-259): insert
the separator into the existing parent and repoint `right_child` if it
pointed at the split page. Returns the updated pager and the final
`parent_page_num`; `none` models the `unimplemented!`/`unreachable!`
panics. -/
def splitParentStep (p : Pager) (page_num : Nat) (original_is_root : Nat)
    (original_parent : Nat) (right_page_num : Nat) (left_max_key : Nat) :
    Option (Pager × Nat) :=
  if original_is_root > 0 then
    let (p, parent_page_num) := p.newPageNum
    let (p, newParent) := p.newInternalPageMut parent_page_num
    let newParent :=
      { newParent with
          is_root := original_is_root,
          parent := original_parent,
          right_child := right_page_num }
    match newParent.insert left_max_key page_num with
    | none => none
    | some newParent =>
      let p := p.setPage parent_page_num (BTreeNode.Internal newParent)
      match p.getPage page_num with
      | (p, some (BTreeNode.Leaf node)) =>
          some (p.setPage page_num
            (BTreeNode.Leaf { node with parent := parent_page_num }),
            parent_page_num)
      | (_, some (BTreeNode.Internal _)) => none
      | (_, none) => none
  else
    match p.getPage original_parent with
    | (p, some (BTreeNode.Internal node)) =>
      match node.insert left_max_key page_num with
      | none => none
      | some node =>
        let node := if node.right_child = page_num then
          { node with right_child := right_page_num } else node
        some (p.setPage original_parent (BTreeNode.Internal node),
          original_parent)
    | (_, some (BTreeNode.Leaf _)) => none
    | (_, none) => none

/-- `Pager::split_and_insert(page_num, cell_num, key, value)` (src/table.rs
lines 192-277). Returns `none` for any of the source's panics, otherwise
`some (pager', Option new_root_page_num)`. -/
def Pager.splitAndInsert (p : Pager) (page_num cell_num : Nat) (key : Nat)
    (value : Row) : Option (Pager × Option Nat) := do
  let (p, old?) := p.getPage page_num
  match old? with
  | none => none
  | some old_node =>
    let original_is_root := old_node.is_root
    let original_parent := old_node.get_parent
    match old_node with
    | .Internal _ => none
    | .Leaf node =>
      let node := node.insert_at cell_num key value
      let cur_kv := node.key_values
      let leftCells := cur_kv.take LEAF_NODE_LEFT_SPLIT_COUNT
      let rightCells := cur_kv.drop LEAF_NODE_LEFT_SPLIT_COUNT
      let node :=
        { node with
            key_values := leftCells,
            num_cells := LEAF_NODE_LEFT_SPLIT_COUNT,
            is_root := 0 }
      let left_max_key := node.max_key
      let right_values := rightCells
      let p := p.setPage page_num (BTreeNode.Leaf node)
      let (p, right_page_num) := p.newPageNum
      let (p, parent_page_num) ← splitParentStep p page_num original_is_root
        original_parent right_page_num left_max_key
      match p.getPage right_page_num with
      | (p, some (BTreeNode.Leaf node)) =>
        let p := p.setPage right_page_num (BTreeNode.Leaf { node with
          key_values := right_values,
          num_cells := LEAF_NODE_RIGHT_SPLIT_COUNT,
          parent := parent_page_num })
        some (p, if original_is_root > 0 then some parent_page_num else none)
      | (_, some (BTreeNode.Internal _)) => none
      | (_, none) => none

/-! ## Table open (src/table.rs lines 10-53) -/

structure Table where
  pager : Pager
  root_page_num : Nat

/-- The root-discovery loop of `Table::new` (src/table.rs lines 29-35):
`root_page_num` starts at 0 and is overwritten by every page whose root
flag is set, so the last flagged page wins. -/
def scanRootsGo (p : Pager) (acc : Nat) : List Nat → Pager × Nat
  | [] => (p, acc)
  | i :: rest =>
    match p.getPage i with
    | (p, some page) =>
        scanRootsGo p (if page.is_root > 0 then i else acc) rest
    | (p, none) => scanRootsGo p acc rest

/-- `Table::new` after `Pager::new` succeeded (src/table.rs lines 16-39).
There is no error return in this part of the source: a one-page file gets
its page 0 root-flagged (when it is a leaf), any other page count triggers
the root scan, and the result is always `Ok`. -/
def Table.new (pager : Pager) : Except String Table :=
  if pager.num_pages = 1 then
    match pager.getPage 0 with
    | (p, some (BTreeNode.Leaf node)) =>
        Except.ok
          { pager := p.setPage 0 (BTreeNode.Leaf { node with is_root := 1 }),
            root_page_num := 0 }
    | (p, _) => Except.ok { pager := p, root_page_num := 0 }
  else
    let r := scanRootsGo pager 0 (List.range pager.num_pages)
    Except.ok { pager := r.1, root_page_num := r.2 }

/-! ## Cursor (src/table.rs lines 293-482) -/

/-- The position part of a `Cursor` (its borrowed `Table` is passed
separately). -/
structure Cur where
  page_num : Nat
  cell_num : Nat
  end_of_table : Bool
deriving DecidableEq, Repr

/-- `Cursor::find_insert_position` (src/table.rs lines 332-377): on a leaf,
binary search; on an internal page, recurse into `find_key`'s result. `fuel`
bounds the recursion depth (the Rust recursion is unbounded and would loop
forever on a page cycle); `none` models the `panic!("page not found")` or an
exhausted bound. -/
def cursorFindInsertPosition : Nat → Pager → Nat → Nat → Pager × Option Cur
  | 0, p, _, _ => (p, none)
  | fuel + 1, p, page_num, key =>
    match p.getPage page_num with
    | (p, some (BTreeNode.Leaf page)) =>
        let r := leafFindInsertPosition page key
        (p, some { page_num := page_num, cell_num := r.1,
                   end_of_table := r.2 })
    | (p, some (BTreeNode.Internal page)) =>
        cursorFindInsertPosition fuel p (page.find_key key) key
    | (p, none) => (p, none)

/-- The sibling scan of `Cursor::advance` (src/table.rs lines 396-405): for
each cell, first store its child into `next_child` if `is_next` is already
set, then set `is_next` once the cell's child equals the leaf's page
number. Since `is_next` is never reset, every later cell overwrites
`next_child`. -/
def nextChildScan (page_num : Nat) :
    List KC → Bool → Option Nat → Option Nat
  | [], _, next_child => next_child
  | kc :: rest, is_next, next_child =>
      nextChildScan page_num rest (is_next || decide (kc.child = page_num))
        (if is_next then some kc.child else next_child)

/-- `Cursor::advance` (src/table.rs lines 379-434). `none` models the
source's `expect`/`unimplemented!`/`unreachable!` panics. -/
def Cursor.advance (p : Pager) (c : Cur) : Option (Pager × Cur) :=
  match p.getPage c.page_num with
  | (_, none) => none
  | (p, some node) =>
    let cell_num := c.cell_num + 1
    match node with
    | .Internal _ => none
    | .Leaf leaf =>
      if cell_num ≥ leaf.num_cells then
        if node.is_root > 0 then
          some (p, { c with cell_num := cell_num, end_of_table := true })
        else
          match p.getPage leaf.parent with
          | (p, some (BTreeNode.Internal parent)) =>
            let next_child :=
              nextChildScan c.page_num parent.key_children false none
            let new_page := next_child.getD parent.right_child
            if new_page = c.page_num then
              some (p, { page_num := new_page, cell_num := cell_num,
                         end_of_table := true })
            else
              some (p, { page_num := new_page, cell_num := 0,
                         end_of_table := c.end_of_table })
          | (_, some (BTreeNode.Leaf _)) => none
          | (_, none) => none
      else some (p, { c with cell_num := cell_num })

/-! ## Statement execution (src/main.rs lines 95-527)

src/main.rs has its own `Table`/`Pager`/`TCursor` with the same slot-table
and page-load logic as src/table.rs (the `Pager` model above stands for
both); its `Table::new` always uses `root_page_num = 0` and its
`TCursor::find_insert_position` only handles a leaf root. -/

inductive StatementType where
  | Insert
  | Select
deriving DecidableEq, Repr

structure Statement where
  st_type : StatementType
  row_to_insert : Option Row
deriving DecidableEq, Repr

inductive ExecuteResult where
  | TableFull
  | InvalidStatement
  | PageMutFailure
  | PageNotFound
  | DuplicateKey
deriving DecidableEq, Repr

/-- `BTreeLeafNode::is_max` (src/tree.rs lines 95-97). -/
def BTreeLeafNode.is_max (n : BTreeLeafNode) : Bool :=
  n.num_cells ≥ NODE_MAX_CELLS

/-- `TCursor::find_insert_position` (src/main.rs lines 568-611): always
starts at the root page; an internal root is `unimplemented!` (`none`), a
missing page panics (`none`). -/
def tcursorFindInsertPosition (t : Table) (key : Nat) :
    Pager × Option Cur :=
  match t.pager.getPage t.root_page_num with
  | (p, some (BTreeNode.Leaf page)) =>
      let r := leafFindInsertPosition page key
      (p, some { page_num := t.root_page_num, cell_num := r.1,
                 end_of_table := r.2 })
  | (p, some (BTreeNode.Internal _)) => (p, none)
  | (p, none) => (p, none)

/-- `execute_insert` (src/main.rs lines 447-495). The outer `Option` models
the panics that can occur inside `TCursor::find_insert_position`; the
`Except` carries the source's `ExecuteResult` errors; the returned `Table`
is the final state. Note the source's `Internal` arms: an internal root
(line 490) and an internal page under the cursor (line 483) both fall
through to `Ok(())` without touching any page. -/
def execute_insert (stmt : Statement) (t : Table) :
    Option (Except ExecuteResult Unit × Table) :=
  match t.pager.getPage t.root_page_num with
  | (p, none) => some (Except.error ExecuteResult.PageNotFound,
      { t with pager := p })
  | (p, some (BTreeNode.Internal _)) => some (Except.ok (),
      { t with pager := p })
  | (p, some (BTreeNode.Leaf page)) =>
    let t := { t with pager := p }
    if page.is_max then
      some (Except.error ExecuteResult.TableFull, t)
    else
      let num_cells := page.num_cells
      match stmt.row_to_insert with
      | none => some (Except.error ExecuteResult.InvalidStatement, t)
      | some row_to_insert =>
        let key_to_insert := row_to_insert.id
        match tcursorFindInsertPosition t key_to_insert with
        | (_, none) => none
        | (p, some cursor) =>
          let t := { t with pager := p }
          let cell_num := cursor.cell_num
          match t.pager.getPage cursor.page_num with
          | (p, none) => some (Except.error ExecuteResult.PageMutFailure,
              { t with pager := p })
          | (p, some (BTreeNode.Internal _)) => some (Except.ok (),
              { t with pager := p })
          | (p, some (BTreeNode.Leaf page)) =>
            let t := { t with pager := p }
            if cell_num < num_cells ∧
                (page.key_values.getD cell_num ⟨0, Row.defaultRow⟩).key
                  = key_to_insert then
              some (Except.error ExecuteResult.DuplicateKey, t)
            else
              let page := page.insert_at cell_num key_to_insert row_to_insert
              let p := t.pager.setPage cursor.page_num (BTreeNode.Leaf page)
              some (Except.ok (), { t with pager := p })

/-! ## Pager::new page count (src/table.rs line 83, src/main.rs line 217)

The source computes
`max(((file_length as f32) / (PAGE_SIZE as f32)).ceil() as usize, 1)`.
`file_length as f32` rounds the integer to the nearest `f32`
(round-to-nearest, ties-to-even, 24-bit significand) — `f32RoundNat`
below. Dividing that value by `4096.0 = 2^12` only shifts the exponent, so
it is exact, and `ceil` of the exact quotient `f32RoundNat L / 4096` is the
integer ceiling division; the `as usize` cast is lossless for every page
count that fits the slot table. Hence the whole expression equals
`max (⌈f32RoundNat L / 4096⌉) 1`. -/

/-- Base-2 logarithm by structural recursion on a fuel that dominates the
number of halvings (any `fuel ≥ n` works), so it evaluates inside
`decide`. -/
def log2Go : Nat → Nat → Nat
  | 0, _ => 0
  | fuel + 1, n => if n ≥ 2 then log2Go fuel (n / 2) + 1 else 0

def log2Nat (n : Nat) : Nat := log2Go n n

/-- Rounding a nonnegative integer to the nearest `f32` (24-bit
significand, ties to even), as an exact integer computation. Every `n <
2 ^ 24` is exactly representable; otherwise `n` is rounded to the nearest
multiple of the unit in the last place `2 ^ (log2 n - 23)`. -/
def f32RoundNat (n : Nat) : Nat :=
  if n < 2 ^ 24 then n
  else
    let ulp := 2 ^ (log2Nat n - 23)
    let q := n / ulp
    let r := n % ulp
    if 2 * r < ulp then q * ulp
    else if 2 * r > ulp then (q + 1) * ulp
    else if q % 2 = 0 then q * ulp else (q + 1) * ulp

/-- The `num_pages` computed by `Pager::new` for a file of length
`file_length`. -/
def pagerNewNumPages (file_length : Nat) : Nat :=
  max ((f32RoundNat file_length + (PAGE_SIZE - 1)) / PAGE_SIZE) 1

/-! ## Well-formedness predicates

These record exactly what the Rust types enforce (`u8`/`u32` ranges, fixed
array widths), that the stored counts match the cell lists, and that the
cells fit in one page — the hypotheses of the round-trip claim. -/

def BTreeLeafNode.WF (n : BTreeLeafNode) : Prop :=
  n.node_type = NodeType.Leaf ∧ n.is_root < 256 ∧ n.parent < 2 ^ 32 ∧
    n.num_cells = n.key_values.length ∧
    n.key_values.length ≤ NODE_MAX_CELLS ∧
    ∀ kv ∈ n.key_values, kv.key < 2 ^ 32 ∧ kv.value.WF

instance (n : BTreeLeafNode) : Decidable n.WF := by
  unfold BTreeLeafNode.WF; infer_instance

def BTreeInternalNode.WF (n : BTreeInternalNode) : Prop :=
  n.node_type = NodeType.Internal ∧ n.is_root < 256 ∧ n.parent < 2 ^ 32 ∧
    n.num_keys = n.key_children.length ∧
    n.key_children.length ≤ INTERNAL_MAX_CELLS ∧ n.right_child < 2 ^ 32 ∧
    ∀ kc ∈ n.key_children, kc.child < 2 ^ 32 ∧ kc.key < 2 ^ 32

instance (n : BTreeInternalNode) : Decidable n.WF := by
  unfold BTreeInternalNode.WF; infer_instance

def BTreeNode.WF : BTreeNode → Prop
  | .Leaf n => n.WF
  | .Internal n => n.WF

instance : (n : BTreeNode) → Decidable n.WF
  | .Leaf n => inferInstanceAs (Decidable n.WF)
  | .Internal n => inferInstanceAs (Decidable n.WF)

/-! ## Concrete instances used as witnesses and counterexamples -/

def mkRow (i : Nat) : Row :=
  { id := i, username := List.replicate COLUMN_USERNAME_SIZE 0,
    email := List.replicate COLUMN_EMAIL_SIZE 0 }

def mkLeafPage (root parent : Nat) (keys : List Nat) : BTreeLeafNode :=
  { node_type := NodeType.Leaf, is_root := root, parent := parent,
    num_cells := keys.length,
    key_values := keys.map (fun k => ⟨k, mkRow k⟩) }

def cLeafA : BTreeLeafNode := mkLeafPage 1 0 [2, 5, 9]

def cInternalA : BTreeInternalNode :=
  { node_type := NodeType.Internal, is_root := 1, parent := 0, num_keys := 1,
    right_child := 2, key_children := [⟨1, 5⟩] }

def cPagerA : Pager :=
  { pages := fun n =>
      if n = 0 then some (BTreeNode.Internal cInternalA)
      else if n = 1 then some (BTreeNode.Leaf (mkLeafPage 0 0 [3]))
      else if n = 2 then some (BTreeNode.Leaf (mkLeafPage 0 0 [7]))
      else none,
    file := fun _ => [], num_pages := 3 }

def cInternalB : BTreeInternalNode :=
  { node_type := NodeType.Internal, is_root := 1, parent := 0, num_keys := 3,
    right_child := 4, key_children := [⟨1, 10⟩, ⟨2, 20⟩, ⟨3, 30⟩] }

def cPagerB : Pager :=
  { pages := fun n =>
      if n = 0 then some (BTreeNode.Internal cInternalB)
      else if n = 1 then some (BTreeNode.Leaf (mkLeafPage 0 0 [10]))
      else if n = 2 then some (BTreeNode.Leaf (mkLeafPage 0 0 [20]))
      else if n = 3 then some (BTreeNode.Leaf (mkLeafPage 0 0 [30]))
      else if n = 4 then some (BTreeNode.Leaf (mkLeafPage 0 0 [40]))
      else none,
    file := fun _ => [], num_pages := 5 }

def cLeaf13 : BTreeLeafNode :=
  mkLeafPage 1 0 [1, 2, 3, 4, 5, 6, 7, 8, 9, 10, 11, 12, 13]

def cPagerC : Pager :=
  { pages := fun n => if n = 0 then some (BTreeNode.Leaf cLeaf13) else none,
    file := fun _ => [], num_pages := 1 }

def cTableD : Table :=
  { pager :=
      { pages := fun n =>
          if n = 0 then some (BTreeNode.Leaf (mkLeafPage 1 0 [1, 3, 5]))
          else none,
        file := fun _ => [], num_pages := 1 },
    root_page_num := 0 }

def cTableE : Table := { pager := cPagerB, root_page_num := 0 }

def cPagerF : Pager :=
  { pages := fun n =>
      if n < 2 then some (BTreeNode.Leaf (mkLeafPage 0 0 [])) else none,
    file := fun _ => [], num_pages := 2 }

def cPagerG : Pager :=
  { pages := fun n =>
      if n < 3 then
        some (BTreeNode.Leaf (mkLeafPage (if n = 1 then 1 else 0) 0 []))
      else none,
    file := fun _ => [], num_pages := 3 }

def cTableF : Table := { pager := cPagerC, root_page_num := 0 }

def cNodeH : BTreeNode := BTreeNode.Leaf (mkLeafPage 1 0 [1, 2])

def cNodeI : BTreeNode :=
  BTreeNode.Internal
    { node_type := NodeType.Internal, is_root := 0, parent := 5,
      num_keys := 2, right_child := 9, key_children := [⟨1, 10⟩, ⟨2, 20⟩] }

/-! ## Helper lemmas -/

theorem getD_lt_of_pairwise {l : List Nat} (hs : l.Pairwise (· < ·))
    {i j : Nat} (hij : i < j) (hj : j < l.length) :
    l.getD i 0 < l.getD j 0 := by
  have hi : i < l.length := lt_trans hij hj
  rw [l.getD_eq_getElem 0 hi, l.getD_eq_getElem 0 hj]
  have := List.pairwise_iff_get.mp hs ⟨i, hi⟩ ⟨j, hj⟩ hij
  simpa using this

theorem getD_le_of_pairwise {l : List Nat} (hs : l.Pairwise (· < ·))
    {i j : Nat} (hij : i ≤ j) (hj : j < l.length) :
    l.getD i 0 ≤ l.getD j 0 := by
  rcases Nat.eq_or_lt_of_le hij with h | h
  · subst h; exact le_refl _
  · exact le_of_lt (getD_lt_of_pairwise hs h hj)

/-- Invariant-based specification of the leaf binary-search loop: starting
from a window `[left, right)` with everything to the left strictly below
`key` and everything from `right` on at least `key`, the loop returns a
cell number `i` that is the first index whose key is `≥ key`, together with
a final `left` value that equals `i` unless the loop broke out on an exact
match (in which case it is `≤ i < right`). -/
theorem leafSearchGo_spec (keys : List Nat) (key : Nat)
    (hs : keys.Pairwise (· < ·)) :
    ∀ fuel left right, left ≤ right → right ≤ keys.length →
      right - left ≤ fuel →
      (∀ j, j < left → keys.getD j 0 < key) →
      (∀ j, right ≤ j → j < keys.length → key ≤ keys.getD j 0) →
      left ≤ (leafSearchGo keys key fuel left right).1 ∧
      (leafSearchGo keys key fuel left right).1 ≤ right ∧
      (leafSearchGo keys key fuel left right).2 ≤
        (leafSearchGo keys key fuel left right).1 ∧
      (∀ j, j < (leafSearchGo keys key fuel left right).1 →
        keys.getD j 0 < key) ∧
      ((leafSearchGo keys key fuel left right).1 < keys.length →
        key ≤ keys.getD (leafSearchGo keys key fuel left right).1 0) ∧
      ((leafSearchGo keys key fuel left right).2 =
        (leafSearchGo keys key fuel left right).1 ∨
        (leafSearchGo keys key fuel left right).1 < right) := by
  intro fuel
  induction fuel with
  | zero =>
    intro left right h1 h2 h3 h4 h5
    have heq : left = right := by omega
    subst heq
    simp only [leafSearchGo]
    exact ⟨le_refl _, le_refl _, le_refl _, h4,
      fun h => h5 left (le_refl _) h, Or.inl trivial⟩
  | succ fuel ih =>
    intro left right h1 h2 h3 h4 h5
    by_cases hlr : left < right
    · have hidx1 : left ≤ (left + right) / 2 := by omega
      have hidx2 : (left + right) / 2 < right := by omega
      have hidxlen : (left + right) / 2 < keys.length := by omega
      by_cases heq : key = keys.getD ((left + right) / 2) 0
      · simp only [leafSearchGo, if_pos hlr, if_pos heq]
        refine ⟨hidx1, le_of_lt hidx2, hidx1, ?_, fun _ => le_of_eq heq,
          Or.inr hidx2⟩
        intro j hj
        calc keys.getD j 0 < keys.getD ((left + right) / 2) 0 :=
              getD_lt_of_pairwise hs hj hidxlen
          _ = key := heq.symm
      · by_cases hlt : key < keys.getD ((left + right) / 2) 0
        · simp only [leafSearchGo, if_pos hlr, if_neg heq, if_pos hlt]
          have h5' : ∀ j, (left + right) / 2 ≤ j → j < keys.length →
              key ≤ keys.getD j 0 := by
            intro j hj hjlen
            exact le_trans (le_of_lt hlt) (getD_le_of_pairwise hs hj hjlen)
          have := ih left ((left + right) / 2) hidx1 (by omega) (by omega)
            h4 h5'
          exact ⟨this.1, le_trans this.2.1 (le_of_lt hidx2), this.2.2.1,
            this.2.2.2.1, this.2.2.2.2.1, Or.inr (by
              rcases this.2.2.2.2.2 with h | h
              · omega
              · omega)⟩
        · have hgt : keys.getD ((left + right) / 2) 0 < key := by omega
          simp only [leafSearchGo, if_pos hlr, if_neg heq, if_neg hlt]
          have h4' : ∀ j, j < (left + right) / 2 + 1 →
              keys.getD j 0 < key := by
            intro j hj
            rcases Nat.lt_or_ge j ((left + right) / 2) with h | h
            · exact lt_trans (getD_lt_of_pairwise hs h hidxlen) hgt
            · have : j = (left + right) / 2 := by omega
              subst this; exact hgt
          have := ih ((left + right) / 2 + 1) right (by omega) h2 (by omega)
            h4' h5
          exact ⟨le_trans (by omega) this.1, this.2.1, this.2.2.1,
            this.2.2.2.1, this.2.2.2.2.1, this.2.2.2.2.2⟩
    · have heq : left = right := by omega
      subst heq
      simp only [leafSearchGo, if_neg hlr]
      exact ⟨le_refl _, le_refl _, le_refl _, h4,
        fun h => h5 left (le_refl _) h, Or.inl trivial⟩

theorem internalSearchGo_le (keys : List Nat) (key : Nat) :
    ∀ fuel left right, left ≤ right →
      internalSearchGo keys key fuel left right ≤ right := by
  intro fuel
  induction fuel with
  | zero => intro left right h; simpa [internalSearchGo] using h
  | succ fuel ih =>
    intro left right h
    by_cases hlr : left < right
    · simp only [internalSearchGo, if_pos hlr]
      by_cases hc : key ≤ keys.getD ((left + right) / 2) 0
      · simp only [if_pos hc]
        exact le_trans (ih left ((left + right) / 2) (by omega)) (by omega)
      · simp only [if_neg hc]
        exact ih ((left + right) / 2 + 1) right (by omega)
    · simpa [internalSearchGo, if_neg hlr] using h

theorem find_insert_position_le (n : BTreeInternalNode) (key : Nat) :
    n.find_insert_position key ≤ n.key_children.length := by
  unfold BTreeInternalNode.find_insert_position
  exact internalSearchGo_le _ key n.key_children.length 0
    n.key_children.length (Nat.zero_le _)

theorem find_key_eq_right_child (n : BTreeInternalNode) (key : Nat) :
    n.find_key key = n.right_child := by
  have h := find_insert_position_le n key
  unfold BTreeInternalNode.find_key
  rw [if_neg (by omega)]

/-- Claim C1: the spec says the descent picks the child of the first
internal cell whose key is at least the search key and falls back to
`right_child` only when no such cell exists. The code disagrees:
`find_key`'s guard `key_children.len() < index` can never hold (the binary
search returns an index at most `len`), so every descent of
`Cursor::find_insert_position` through an internal page recurses into
`right_child`, regardless of the search key. -/
theorem claim_C1_descent_always_right_child :
    (∀ (n : BTreeInternalNode) (key : Nat),
      n.find_key key = n.right_child) ∧
    (∀ (fuel : Nat) (p : Pager) (page_num key : Nat)
      (n : BTreeInternalNode),
      p.pages page_num = some (BTreeNode.Internal n) →
      cursorFindInsertPosition (fuel + 1) p page_num key =
        cursorFindInsertPosition fuel p n.right_child key) := by
  refine ⟨find_key_eq_right_child, ?_⟩
  intro fuel p page_num key n hp
  have h1 : p.getPage page_num = (p, some (BTreeNode.Internal n)) := by
    unfold Pager.getPage
    rw [hp]
  simp only [cursorFindInsertPosition, h1, find_key_eq_right_child]

theorem claim_C1_descent_always_right_child_witness :
    cPagerA.pages 0 = some (BTreeNode.Internal cInternalA) ∧
    cursorFindInsertPosition 2 cPagerA 0 3 =
      cursorFindInsertPosition 1 cPagerA cInternalA.right_child 3 :=
  ⟨by decide,
   claim_C1_descent_always_right_child.2 1 cPagerA 0 3 cInternalA (by decide)⟩

/-- Claim C5: on a leaf whose keys are strictly ascending,
`find_insert_position` returns the first index `i` with
`cells[i].key ≥ key` (in particular exactly the index of `key` when the
key is present), and `end_of_table` is true iff `i` equals the leaf's cell
count. -/
theorem claim_C5_leaf_find_insert_position (page : BTreeLeafNode) (key : Nat)
    (hnum : page.num_cells = page.key_values.length)
    (hs : (page.key_values.map KV.key).Pairwise (· < ·)) :
    (leafFindInsertPosition page key).1 ≤ page.num_cells ∧
    (∀ j, j < (leafFindInsertPosition page key).1 →
      (page.key_values.map KV.key).getD j 0 < key) ∧
    ((leafFindInsertPosition page key).1 < page.num_cells →
      key ≤ (page.key_values.map KV.key).getD
        (leafFindInsertPosition page key).1 0) ∧
    (∀ j, j < page.num_cells →
      (page.key_values.map KV.key).getD j 0 = key →
      (leafFindInsertPosition page key).1 = j) ∧
    ((leafFindInsertPosition page key).2 = true ↔
      (leafFindInsertPosition page key).1 = page.num_cells) := by
  have hlen : (page.key_values.map KV.key).length = page.key_values.length :=
    List.length_map _ _
  have hspec := leafSearchGo_spec (page.key_values.map KV.key) key hs
    page.num_cells 0 page.num_cells (Nat.zero_le _) (by omega) (by omega)
    (by intro j hj; omega) (by intro j hj hjlen; omega)
  obtain ⟨hA, hB, hC, hD, hE, hF⟩ := hspec
  simp only [leafFindInsertPosition]
  refine ⟨hB, hD, ?_, ?_, ?_⟩
  · intro hlt
    exact hE (by omega)
  · intro j hj hkey
    rcases Nat.lt_trichotomy
      ((leafSearchGo (page.key_values.map KV.key) key page.num_cells 0
        page.num_cells).1) j with h | h | h
    · exfalso
      have h1 := hE (by omega)
      have h2 := getD_lt_of_pairwise hs h (by omega)
      omega
    · exact h
    · exfalso
      have := hD j h
      omega
  · rw [decide_eq_true_iff]
    constructor
    · intro h
      omega
    · intro h
      rcases hF with h2 | h2 <;> omega

theorem claim_C5_leaf_find_insert_position_witness :
    cLeafA.num_cells = cLeafA.key_values.length ∧
    (cLeafA.key_values.map KV.key).Pairwise (· < ·) ∧
    ((leafFindInsertPosition cLeafA 5).1 ≤ cLeafA.num_cells ∧
      (∀ j, j < (leafFindInsertPosition cLeafA 5).1 →
        (cLeafA.key_values.map KV.key).getD j 0 < 5) ∧
      ((leafFindInsertPosition cLeafA 5).1 < cLeafA.num_cells →
        5 ≤ (cLeafA.key_values.map KV.key).getD
          (leafFindInsertPosition cLeafA 5).1 0) ∧
      (∀ j, j < cLeafA.num_cells →
        (cLeafA.key_values.map KV.key).getD j 0 = 5 →
        (leafFindInsertPosition cLeafA 5).1 = j) ∧
      ((leafFindInsertPosition cLeafA 5).2 = true ↔
        (leafFindInsertPosition cLeafA 5).1 = cLeafA.num_cells)) :=
  ⟨by decide, by decide,
   claim_C5_leaf_find_insert_position cLeafA 5 (by decide) (by decide)⟩

/-- Claim C7: the spec says a cursor leaving the last cell of a non-root
leaf moves to the immediately next sibling. The code's sibling scan keeps
overwriting `next_child` after the match, so from leaf page 1 — whose
parent lists children `[1, 2, 3]` (then `right_child` 4) — `advance` lands
on page 3, skipping the immediate sibling page 2. -/
theorem claim_C7_advance_skips_middle_sibling :
    (Cursor.advance cPagerB
      { page_num := 1, cell_num := 0, end_of_table := false }).map
        Prod.snd =
      some { page_num := 3, cell_num := 0, end_of_table := false } ∧
    cInternalB.key_children.map KC.child = [1, 2, 3] := by decide

/-- Claim C10: when the cached root page is an Internal node,
`execute_insert` returns `Ok(())` without touching any page or inserting
anything: the table state is returned unchanged. -/
theorem claim_C10_internal_root_insert_noop (t : Table) (stmt : Statement)
    (n : BTreeInternalNode)
    (h : t.pager.pages t.root_page_num = some (BTreeNode.Internal n)) :
    execute_insert stmt t = some (Except.ok (), t) := by
  unfold execute_insert Pager.getPage
  rw [h]

theorem claim_C10_internal_root_insert_noop_witness :
    cTableE.pager.pages cTableE.root_page_num =
      some (BTreeNode.Internal cInternalB) ∧
    execute_insert
      { st_type := StatementType.Insert, row_to_insert := some (mkRow 3) }
      cTableE =
      some (Except.ok (), cTableE) :=
  ⟨by decide, claim_C10_internal_root_insert_noop cTableE _ cInternalB
    (by decide)⟩

theorem getD_map_key (l : List KV) (i : Nat) (h : i < l.length) (d : KV) :
    (l.map KV.key).getD i 0 = (l.getD i d).key := by
  rw [List.getD_eq_getElem _ _ (by simpa using h), List.getD_eq_getElem _ _ h]
  simp

/-- On a leaf with strictly ascending keys that contains `key`, the binary
search lands exactly on `key`'s cell. -/
theorem leafFIP_found (page : BTreeLeafNode) (key : Nat)
    (hnum : page.num_cells = page.key_values.length)
    (hs : (page.key_values.map KV.key).Pairwise (· < ·))
    (hin : ∃ j, j < page.num_cells ∧
      (page.key_values.map KV.key).getD j 0 = key) :
    (leafFindInsertPosition page key).1 < page.num_cells ∧
    (page.key_values.map KV.key).getD (leafFindInsertPosition page key).1 0
      = key := by
  obtain ⟨j, hj, hkey⟩ := hin
  have hlen : (page.key_values.map KV.key).length = page.key_values.length :=
    List.length_map _ _
  have hspec := leafSearchGo_spec (page.key_values.map KV.key) key hs
    page.num_cells 0 page.num_cells (Nat.zero_le _) (by omega) (by omega)
    (by intro j2 hj2; omega) (by intro j2 hj2 hjlen; omega)
  obtain ⟨hA, hB, hC, hD, hE, hF⟩ := hspec
  simp only [leafFindInsertPosition]
  rcases Nat.lt_trichotomy
    ((leafSearchGo (page.key_values.map KV.key) key page.num_cells 0
      page.num_cells).1) j with h | h | h
  · exfalso
    have h1 := hE (by omega)
    have h2 := getD_lt_of_pairwise hs h (by omega)
    omega
  · subst h
    exact ⟨hj, hkey⟩
  · exfalso
    have := hD j h
    omega

/-- Claim C6 (amended): when the cached, sorted root leaf is NOT full,
inserting a key it already contains returns `DuplicateKey` and leaves the
whole table — cell count and cell contents included — unchanged. The
not-full hypothesis is forced by the full-leaf counterexample: on a full
leaf the `is_max` check fires first and the result is `TableFull`. -/
theorem claim_C6_duplicate_key (t : Table) (stmt : Statement) (row : Row)
    (L : BTreeLeafNode)
    (hroot : t.pager.pages t.root_page_num = some (BTreeNode.Leaf L))
    (hnum : L.num_cells = L.key_values.length)
    (hmax : L.num_cells < NODE_MAX_CELLS)
    (hs : (L.key_values.map KV.key).Pairwise (· < ·))
    (hstmt : stmt.row_to_insert = some row)
    (hin : ∃ j, j < L.num_cells ∧
      (L.key_values.map KV.key).getD j 0 = row.id) :
    execute_insert stmt t =
      some (Except.error ExecuteResult.DuplicateKey, t) := by
  have hlen : (L.key_values.map KV.key).length = L.key_values.length :=
    List.length_map _ _
  have hfound := leafFIP_found L row.id hnum hs hin
  have hism : L.is_max = false := by
    unfold BTreeLeafNode.is_max
    simp only [decide_eq_false_iff_not]
    omega
  have hdup : (L.key_values.getD (leafFindInsertPosition L row.id).1
      ⟨0, Row.defaultRow⟩).key = row.id := by
    rw [← getD_map_key _ _ (by omega)]
    exact hfound.2
  unfold execute_insert tcursorFindInsertPosition Pager.getPage
  simp only [hroot, hstmt, hism, Bool.false_eq_true, if_false]
  rw [if_pos ⟨hfound.1, hdup⟩]

theorem claim_C6_duplicate_key_witness :
    cTableD.pager.pages cTableD.root_page_num =
      some (BTreeNode.Leaf (mkLeafPage 1 0 [1, 3, 5])) ∧
    execute_insert
      { st_type := StatementType.Insert, row_to_insert := some (mkRow 3) }
      cTableD =
      some (Except.error ExecuteResult.DuplicateKey, cTableD) :=
  ⟨by decide,
   claim_C6_duplicate_key cTableD _ (mkRow 3) (mkLeafPage 1 0 [1, 3, 5])
     (by decide) (by decide) (by decide) (by decide) rfl ⟨1, by decide⟩⟩

theorem scanRootsGo_append (p : Pager) (acc : Nat) (l1 l2 : List Nat) :
    scanRootsGo p acc (l1 ++ l2) =
      scanRootsGo (scanRootsGo p acc l1).1 (scanRootsGo p acc l1).2 l2 := by
  induction l1 generalizing p acc with
  | nil => simp [scanRootsGo]
  | cons i rest ih =>
    simp only [List.cons_append, scanRootsGo]
    rcases h : p.getPage i with ⟨p', node?⟩
    cases node? <;> simp [ih]

/-- Behaviour of the root-discovery loop over fully cached pages: the pager
is untouched; if no page is root-flagged the accumulator survives, and
otherwise the result is the last (greatest) root-flagged page index. -/
theorem scanRoots_range_spec (n : Nat) :
    ∀ (p : Pager) (acc : Nat),
    (∀ i, i < n → ∃ node, p.pages i = some node) →
    (scanRootsGo p acc (List.range n)).1 = p ∧
    ((∀ i node, i < n → p.pages i = some node → node.is_root = 0) →
      (scanRootsGo p acc (List.range n)).2 = acc) ∧
    ((∃ i, i < n ∧ ∃ node, p.pages i = some node ∧ node.is_root > 0) →
      ((scanRootsGo p acc (List.range n)).2 < n ∧
       (∃ rn, p.pages (scanRootsGo p acc (List.range n)).2 = some rn ∧
         rn.is_root > 0) ∧
       (∀ j nj, (scanRootsGo p acc (List.range n)).2 < j → j < n →
         p.pages j = some nj → nj.is_root = 0))) := by
  induction n with
  | zero =>
    intro p acc hc
    refine ⟨rfl, fun _ => rfl, ?_⟩
    rintro ⟨i, hi, _⟩
    omega
  | succ n ih =>
    intro p acc hc
    obtain ⟨node, hnode⟩ := hc n (by omega)
    have hgp : p.getPage n = (p, some node) := by
      unfold Pager.getPage
      rw [hnode]
    have hrec := ih p acc (fun i hi => hc i (by omega))
    rw [List.range_succ, scanRootsGo_append, hrec.1]
    simp only [scanRootsGo, hgp]
    by_cases hflag : node.is_root > 0
    · rw [if_pos hflag]
      refine ⟨trivial, ?_, ?_⟩
      · intro hall
        exact absurd (hall n node (by omega) hnode) (by omega)
      · intro _
        exact ⟨by omega, ⟨node, hnode, hflag⟩, by intro j nj h1 h2 _; omega⟩
    · rw [if_neg hflag]
      have hflag0 : node.is_root = 0 := by omega
      refine ⟨trivial, ?_, ?_⟩
      · intro hall
        exact hrec.2.1 (fun i nd hi hp => hall i nd (by omega) hp)
      · rintro ⟨i, hi, nd, hp, hf⟩
        have hin : i < n := by
          rcases Nat.lt_or_ge i n with h | h
          · exact h
          · have : i = n := by omega
            subst this
            rw [hnode] at hp
            cases hp
            omega
        have hr := hrec.2.2 ⟨i, hin, nd, hp, hf⟩
        refine ⟨by omega, hr.2.1, ?_⟩
        intro j nj h1 h2 hpj
        rcases Nat.lt_or_ge j n with h | h
        · exact hr.2.2 j nj h1 h hpj
        · have : j = n := by omega
          subst this
          rw [hnode] at hpj
          cases hpj
          exact hflag0

/-- Claim C8 counterexample: a fully cached two-page file with no
root-flagged page. The claim says opening must fail with a
structural-corruption error; `Table::new` instead succeeds and silently
uses page 0 as the root. -/
theorem claim_C8_counterexample :
    cPagerF.num_pages = 2 ∧
    cPagerF.pages 0 = some (BTreeNode.Leaf (mkLeafPage 0 0 [])) ∧
    cPagerF.pages 1 = some (BTreeNode.Leaf (mkLeafPage 0 0 [])) ∧
    (mkLeafPage 0 0 []).is_root = 0 ∧
    Table.new cPagerF =
      Except.ok { pager := cPagerF, root_page_num := 0 } :=
  ⟨rfl, rfl, rfl, rfl, rfl⟩

/-- Claim C8 (amended): for a page count other than one, `Table::new`
never fails; the scan leaves the pager untouched (pages cached) and sets
`root_page_num` to the last root-flagged page index, defaulting to 0 when
no page is flagged. -/
theorem claim_C8_root_scan (p : Pager) (h1 : p.num_pages ≠ 1)
    (hc : ∀ i, i < p.num_pages → ∃ node, p.pages i = some node) :
    ∃ t, Table.new p = Except.ok t ∧ t.pager = p ∧
      ((∀ i node, i < p.num_pages → p.pages i = some node →
        node.is_root = 0) → t.root_page_num = 0) ∧
      ((∃ i, i < p.num_pages ∧ ∃ node, p.pages i = some node ∧
          node.is_root > 0) →
        (t.root_page_num < p.num_pages ∧
         (∃ rn, p.pages t.root_page_num = some rn ∧ rn.is_root > 0) ∧
         ∀ j nj, t.root_page_num < j → j < p.num_pages →
           p.pages j = some nj → nj.is_root = 0)) := by
  have hspec := scanRoots_range_spec p.num_pages p 0 hc
  refine ⟨{ pager := (scanRootsGo p 0 (List.range p.num_pages)).1,
            root_page_num := (scanRootsGo p 0 (List.range p.num_pages)).2 },
    ?_, hspec.1, hspec.2.1, hspec.2.2⟩
  unfold Table.new
  rw [if_neg h1]

theorem claim_C8_root_scan_witness :
    cPagerG.num_pages ≠ 1 ∧
    (∃ t, Table.new cPagerG = Except.ok t ∧ t.pager = cPagerG ∧
      ((∀ i node, i < cPagerG.num_pages → cPagerG.pages i = some node →
        node.is_root = 0) → t.root_page_num = 0) ∧
      ((∃ i, i < cPagerG.num_pages ∧ ∃ node, cPagerG.pages i = some node ∧
          node.is_root > 0) →
        (t.root_page_num < cPagerG.num_pages ∧
         (∃ rn, cPagerG.pages t.root_page_num = some rn ∧
           rn.is_root > 0) ∧
         ∀ j nj, t.root_page_num < j → j < cPagerG.num_pages →
           cPagerG.pages j = some nj → nj.is_root = 0))) :=
  ⟨by decide, claim_C8_root_scan cPagerG (by decide)
    (fun i hi => ⟨_, if_pos hi⟩)⟩

theorem log2Go_spec : ∀ fuel n, n ≤ fuel → 1 ≤ n →
    2 ^ log2Go fuel n ≤ n ∧ n < 2 ^ (log2Go fuel n + 1) := by
  intro fuel
  induction fuel with
  | zero => intro n h1 h2; omega
  | succ fuel ih =>
    intro n h1 h2
    by_cases h : n ≥ 2
    · simp only [log2Go, if_pos h]
      obtain ⟨ha, hb⟩ := ih (n / 2) (by omega) (by omega)
      have e1 : 2 ^ (log2Go fuel (n / 2) + 1) =
          2 * 2 ^ log2Go fuel (n / 2) := by ring
      have e2 : 2 ^ (log2Go fuel (n / 2) + 1 + 1) =
          2 * 2 ^ (log2Go fuel (n / 2) + 1) := by ring
      omega
    · simp only [log2Go, if_neg h]
      have : n = 1 := by omega
      subst this
      decide

/-- Justification of the `log2Nat` used in the `f32` model: it is the
floor base-2 logarithm. -/
theorem log2Nat_spec (n : Nat) (h : 1 ≤ n) :
    2 ^ log2Nat n ≤ n ∧ n < 2 ^ (log2Nat n + 1) :=
  log2Go_spec n n (le_refl n) h

/-- Claim C9 counterexample: at the representable file length
`L = 2 ^ 25 + 1`, the `f32` arithmetic of `Pager::new` yields 8192 pages,
while exact integer ceiling division yields 8193 — so the computation is
not the exact `max(ceil(L / PAGE_SIZE), 1)` for all representable
lengths. -/
theorem claim_C9_counterexample :
    pagerNewNumPages (2 ^ 25 + 1) = 8192 ∧
    Nat.max ((2 ^ 25 + 1 + (PAGE_SIZE - 1)) / PAGE_SIZE) 1 = 8193 := by
  decide

/-- Claim C9 (amended): the page count of `Pager::new` equals the exact
`max(ceil(L / PAGE_SIZE), 1)` for every file length up to `2 ^ 24` bytes
(the range on which the `u64`-to-`f32` conversion is exact); beyond that
the file length is first rounded to 24-bit `f32` precision. -/
theorem claim_C9_page_count (L : Nat) (h : L ≤ 2 ^ 24) :
    pagerNewNumPages L = max ((L + (PAGE_SIZE - 1)) / PAGE_SIZE) 1 := by
  rcases Nat.lt_or_ge L (2 ^ 24) with h2 | h2
  · unfold pagerNewNumPages f32RoundNat
    rw [if_pos h2]
  · have hL : L = 2 ^ 24 := by omega
    subst hL
    decide

theorem claim_C9_page_count_witness :
    5000 ≤ 2 ^ 24 ∧
    pagerNewNumPages 5000 = max ((5000 + (PAGE_SIZE - 1)) / PAGE_SIZE) 1 :=
  ⟨by decide, claim_C9_page_count 5000 (by decide)⟩

/-- On any buffer shorter than 6 bytes, `BTreeNode::from` substitutes its
10-byte fallback `[1, 1, 0, ...]`, whose first byte tags an Internal node;
parsing an internal header needs 14 bytes, so reading `right_child` hits
the end of the fallback and the `expect` panics (`none`). -/
theorem fromBytes_short (buf : List Nat) (h : buf.length < 6) :
    BTreeNode.fromBytes buf = none := by
  simp only [BTreeNode.fromBytes, if_pos h]
  rfl

/-- Any all-zero buffer of at least 10 bytes (in particular a zeroed page
buffer for a never-written page) deserializes to an empty Leaf whose root
flag is clear. -/
theorem fromBytes_allZero (m : Nat) :
    BTreeNode.fromBytes (List.replicate (10 + m) 0) =
      some (BTreeNode.Leaf
        { node_type := NodeType.Leaf, is_root := 0, parent := 0,
          num_cells := 0, key_values := [] }) := by
  rw [List.replicate_add]
  simp only [BTreeNode.fromBytes, List.length_append, List.length_replicate]
  rw [if_neg (by omega)]
  rfl

/-- Claim C2 counterexample: deserializing the empty buffer does not yield
an empty root Leaf — it panics (the Internal-tagged 10-byte fallback
underruns its own header) — and deserializing a full all-zero page yields
a Leaf whose `is_root` is 0, not 1. -/
theorem claim_C2_counterexample :
    BTreeNode.fromBytes [] = none ∧
    BTreeNode.fromBytes (List.replicate PAGE_SIZE 0) =
      some (BTreeNode.Leaf
        { node_type := NodeType.Leaf, is_root := 0, parent := 0,
          num_cells := 0, key_values := [] }) := by
  refine ⟨fromBytes_short [] (by decide), ?_⟩
  have h := fromBytes_allZero 4086
  norm_num at h
  exact h

/-- Claim C2 (amended): deserializing a buffer shorter than 6 bytes fails
(the substituted fallback is tagged Internal but too short for an internal
header); deserializing an all-zero buffer of at least 10 bytes — such as
the zero-filled `PAGE_SIZE` buffer a never-written page is read into —
succeeds and yields an empty non-root Leaf (`is_root = 0`,
`num_cells = 0`). -/
theorem claim_C2_never_written_page (buf : List Nat) (n : Nat) :
    (buf.length < 6 → BTreeNode.fromBytes buf = none) ∧
    (10 ≤ n → BTreeNode.fromBytes (List.replicate n 0) =
      some (BTreeNode.Leaf
        { node_type := NodeType.Leaf, is_root := 0, parent := 0,
          num_cells := 0, key_values := [] })) := by
  refine ⟨fromBytes_short buf, ?_⟩
  intro h
  obtain ⟨m, rfl⟩ : ∃ m, n = 10 + m := ⟨n - 10, by omega⟩
  exact fromBytes_allZero m

theorem claim_C2_never_written_page_witness :
    ([] : List Nat).length < 6 ∧ (10 : Nat) ≤ 4096 ∧
    BTreeNode.fromBytes [] = none ∧
    BTreeNode.fromBytes (List.replicate 4096 0) =
      some (BTreeNode.Leaf
        { node_type := NodeType.Leaf, is_root := 0, parent := 0,
          num_cells := 0, key_values := [] }) :=
  ⟨by decide, by decide,
   (claim_C2_never_written_page [] 4096).1 (by decide),
   (claim_C2_never_written_page [] 4096).2 (by decide)⟩

theorem readU32_u32LE (n : Nat) (h : n < 2 ^ 32) (rest : List Nat) :
    readU32 (u32LE n ++ rest) = some (n, rest) := by
  simp only [u32LE, List.cons_append, List.nil_append, readU32,
    Option.some.injEq, Prod.mk.injEq]
  exact ⟨by omega, trivial⟩

theorem readExact_exact (n : Nat) (l rest : List Nat) (h : l.length = n) :
    readExact n (l ++ rest) = (l, rest) := by
  subst h
  simp [readExact, List.take_left, List.drop_left,
    Nat.sub_eq_zero_of_le, List.length_append]

theorem readExact_all (n : Nat) (l : List Nat) (h : l.length = n) :
    readExact n l = (l, []) := by
  have := readExact_exact n l [] h
  simpa using this

theorem Row.deserialize_serialize (r : Row) (h : r.WF) :
    Row.deserialize r.serialize = some r := by
  obtain ⟨h1, h2, h3⟩ := h
  unfold Row.deserialize Row.serialize
  rw [List.append_assoc, readU32_u32LE r.id h1]
  simp only [Option.bind_eq_bind, Option.some_bind]
  rw [readExact_exact COLUMN_USERNAME_SIZE r.username r.email h2,
    readExact_all COLUMN_EMAIL_SIZE r.email h3]
  rfl

theorem u32LE_length (n : Nat) : (u32LE n).length = 4 := by
  simp [u32LE]

theorem Row.serialize_length (r : Row) (h : r.WF) :
    r.serialize.length = ROW_SIZE := by
  obtain ⟨h1, h2, h3⟩ := h
  simp [Row.serialize, u32LE, h2, h3, ROW_SIZE, ID_SIZE,
    COLUMN_USERNAME_SIZE, COLUMN_EMAIL_SIZE]

theorem readLeafCells_roundtrip (kvs : List KV) (rest : List Nat)
    (h : ∀ kv ∈ kvs, kv.key < 2 ^ 32 ∧ kv.value.WF) :
    readLeafCells kvs.length
      (kvs.flatMap (fun kv => u32LE kv.key ++ kv.value.serialize) ++ rest) =
      some (kvs, rest) := by
  induction kvs with
  | nil => simp [readLeafCells]
  | cons kv kvs ih =>
    obtain ⟨hk, hr⟩ := h kv (List.mem_cons_self _ _)
    simp only [List.flatMap_cons, List.length_cons, readLeafCells]
    rw [List.append_assoc, List.append_assoc, readU32_u32LE kv.key hk]
    simp only [Option.bind_eq_bind, Option.some_bind]
    rw [readExact_exact ROW_SIZE _ _ (Row.serialize_length _ hr),
      Row.deserialize_serialize _ hr]
    simp only [Option.some_bind]
    rw [ih (fun x hx => h x (List.mem_cons_of_mem _ hx))]
    rfl

theorem readInternalCells_roundtrip (kcs : List KC) (rest : List Nat)
    (h : ∀ kc ∈ kcs, kc.child < 2 ^ 32 ∧ kc.key < 2 ^ 32) :
    readInternalCells kcs.length
      (kcs.flatMap (fun kc => u32LE kc.child ++ u32LE kc.key) ++ rest) =
      some (kcs, rest) := by
  induction kcs with
  | nil => simp [readInternalCells]
  | cons kc kcs ih =>
    obtain ⟨hc, hk⟩ := h kc (List.mem_cons_self _ _)
    simp only [List.flatMap_cons, List.length_cons, readInternalCells]
    rw [List.append_assoc, List.append_assoc, readU32_u32LE kc.child hc]
    simp only [Option.bind_eq_bind, Option.some_bind]
    rw [readU32_u32LE kc.key hk]
    simp only [Option.some_bind]
    rw [ih (fun x hx => h x (List.mem_cons_of_mem _ hx))]
    rfl

theorem claim_C3_roundtrip (n : BTreeNode) (h : n.WF) :
    BTreeNode.fromBytes n.serialize = some n := by
  cases n with
  | Leaf L =>
    rcases L with ⟨nt, ir, par, nc, kvs⟩
    obtain ⟨htype, hroot, hparent, hnum, hfits, hcells⟩ := h
    dsimp only at htype hroot hparent hnum hfits hcells
    subst htype
    subst hnum
    have h13 : NODE_MAX_CELLS = 13 := by decide
    simp only [BTreeNode.serialize]
    rw [BTreeNode.fromBytes]
    rw [if_neg (by
      simp only [List.cons_append, List.length_cons, List.length_append,
        List.length_replicate, u32LE_length]
      omega)]
    simp only [List.cons_append, readU8, Option.bind_eq_bind,
      Option.some_bind]
    rw [List.append_assoc, List.append_assoc, readU32_u32LE par hparent]
    simp only [Option.some_bind, if_true, if_false]
    rw [readU32_u32LE kvs.length (by omega)]
    simp only [Option.some_bind]
    rw [readLeafCells_roundtrip kvs _ hcells]
    rfl
  | Internal I =>
    rcases I with ⟨nt, ir, par, nk, rc, kcs⟩
    obtain ⟨htype, hroot, hparent, hnum, hfits, hrc, hcells⟩ := h
    dsimp only at htype hroot hparent hnum hfits hrc hcells
    subst htype
    subst hnum
    have h510 : INTERNAL_MAX_CELLS = 510 := by decide
    simp only [BTreeNode.serialize]
    rw [BTreeNode.fromBytes]
    rw [if_neg (by
      simp only [List.cons_append, List.length_cons, List.length_append,
        List.length_replicate, u32LE_length]
      omega)]
    simp only [List.cons_append, readU8, Option.bind_eq_bind,
      Option.some_bind]
    rw [List.append_assoc, List.append_assoc, List.append_assoc,
      readU32_u32LE par hparent]
    simp only [Option.some_bind,
      show ((1 : Nat) = 0) ↔ False by decide,
      show ((1 : Nat) = 1) ↔ True by decide, if_true, if_false]
    rw [readU32_u32LE kcs.length (by omega)]
    simp only [Option.some_bind]
    rw [readU32_u32LE rc hrc]
    simp only [Option.some_bind]
    rw [readInternalCells_roundtrip kcs _ hcells]
    rfl

theorem claim_C3_roundtrip_witness :
    cNodeH.WF ∧ cNodeI.WF ∧
    BTreeNode.fromBytes cNodeH.serialize = some cNodeH ∧
    BTreeNode.fromBytes cNodeI.serialize = some cNodeI :=
  ⟨by decide, by decide, claim_C3_roundtrip cNodeH (by decide),
   claim_C3_roundtrip cNodeI (by decide)⟩

theorem sorted_key_le_getLast :
    ∀ (cells : List KV), (cells.map KV.key).Pairwise (· < ·) →
      cells ≠ [] →
      ∃ last, cells.getLast? = some last ∧
        ∀ kv ∈ cells, kv.key ≤ last.key := by
  intro cells
  induction cells with
  | nil => intro _ h; exact absurd rfl h
  | cons c cs ih =>
    intro hs _
    rw [List.map_cons, List.pairwise_cons] at hs
    rcases cs with _ | ⟨d, ds⟩
    · refine ⟨c, rfl, ?_⟩
      intro kv h
      rw [List.mem_singleton.mp h]
    · obtain ⟨last, hl, hle⟩ := ih hs.2 (by simp)
      refine ⟨last, ?_, ?_⟩
      · rw [List.getLast?_cons_cons, hl]
      · intro kv hmem
        rcases List.mem_cons.mp hmem with h | h
        · subst h
          have h1 : kv.key < d.key := hs.1 d.key (by simp)
          have h2 := hle d (by simp)
          omega
        · exact hle kv h

theorem Pager.setPage_num_pages (p : Pager) (n : Nat) (node : BTreeNode) :
    (p.setPage n node).num_pages = p.num_pages := rfl

theorem Pager.setPage_file (p : Pager) (n : Nat) (node : BTreeNode) :
    (p.setPage n node).file = p.file := rfl

theorem Pager.setPage_pages (p : Pager) (n : Nat) (node : BTreeNode)
    (m : Nat) :
    (p.setPage n node).pages m = if m = n then some node else p.pages m :=
  rfl

theorem internalInsert_empty (n : BTreeInternalNode)
    (hk : n.key_children = []) (hn : n.num_keys = 0) (key child : Nat) :
    n.insert key child =
      some { n with key_children := [⟨child, key⟩],
                    num_keys := n.num_keys + 1 } := by
  have h510 : INTERNAL_MAX_CELLS = 510 := by decide
  unfold BTreeInternalNode.insert
  rw [if_neg (by omega)]
  unfold BTreeInternalNode.find_insert_position
  rw [hk]
  simp [internalSearchGo, List.insertIdx]

theorem fromBytes_padToPage_nil :
    BTreeNode.fromBytes (padToPage []) =
      some (BTreeNode.Leaf
        { node_type := NodeType.Leaf, is_root := 0, parent := 0,
          num_cells := 0, key_values := [] }) := by
  have h := fromBytes_allZero 4086
  norm_num at h
  simp only [padToPage, List.take_nil, List.length_nil, Nat.sub_zero,
    List.nil_append]
  exact h

/-- Claim C4: splitting a full root leaf first forms the
`NODE_MAX_CELLS + 1` sorted cells, keeps the first `left_count = 7` cells
on the original page with its root flag cleared and its parent set to the
new root, moves the remaining `right_count = 7` cells to a freshly
allocated page, and creates a new Internal root (flagged root, inheriting
the old parent) whose `right_child` is the new page and whose single cell
is `(child = original page, key = maximum key of the left page)`; the new
root's page number is returned. Pages other than these three are
untouched. -/
theorem claim_C4_root_leaf_split (p : Pager) (page_num cell_num : Nat)
    (key : Nat) (value : Row) (L : BTreeLeafNode)
    (hpage : p.pages page_num = some (BTreeNode.Leaf L))
    (hroot : L.is_root > 0)
    (_hnum : L.num_cells = NODE_MAX_CELLS)
    (hcount : L.key_values.length = NODE_MAX_CELLS)
    (hcell : cell_num ≤ NODE_MAX_CELLS)
    (hsorted : ((L.key_values.insertIdx cell_num ⟨key, value⟩).map
      KV.key).Pairwise (· < ·))
    (hlt : page_num < p.num_pages)
    (hfresh : p.pages p.num_pages = none)
    (hfile : p.file p.num_pages = []) :
    ∃ p' sep,
      p.splitAndInsert page_num cell_num key value =
        some (p', some (p.num_pages + 1)) ∧
      (L.key_values.insertIdx cell_num ⟨key, value⟩).length =
        NODE_MAX_CELLS + 1 ∧
      p'.num_pages = p.num_pages + 2 ∧
      p'.pages page_num = some (BTreeNode.Leaf
        { node_type := L.node_type, is_root := 0,
          parent := p.num_pages + 1,
          num_cells := LEAF_NODE_LEFT_SPLIT_COUNT,
          key_values := (L.key_values.insertIdx cell_num
            ⟨key, value⟩).take LEAF_NODE_LEFT_SPLIT_COUNT }) ∧
      p'.pages p.num_pages = some (BTreeNode.Leaf
        { node_type := NodeType.Leaf, is_root := 0,
          parent := p.num_pages + 1,
          num_cells := LEAF_NODE_RIGHT_SPLIT_COUNT,
          key_values := (L.key_values.insertIdx cell_num
            ⟨key, value⟩).drop LEAF_NODE_LEFT_SPLIT_COUNT }) ∧
      ((L.key_values.insertIdx cell_num ⟨key, value⟩).take
        LEAF_NODE_LEFT_SPLIT_COUNT).getLast? = some sep ∧
      p'.pages (p.num_pages + 1) = some (BTreeNode.Internal
        { node_type := NodeType.Internal, is_root := L.is_root,
          parent := L.parent, num_keys := 1, right_child := p.num_pages,
          key_children := [⟨page_num, sep.key⟩] }) ∧
      (∀ kv ∈ (L.key_values.insertIdx cell_num ⟨key, value⟩).take
        LEAF_NODE_LEFT_SPLIT_COUNT, kv.key ≤ sep.key) ∧
      (∀ m, m ≠ page_num → m ≠ p.num_pages → m ≠ p.num_pages + 1 →
        p'.pages m = p.pages m) := by
  have h13 : NODE_MAX_CELLS = 13 := by decide
  have hL7 : LEAF_NODE_LEFT_SPLIT_COUNT = 7 := by decide
  have hclen : (L.key_values.insertIdx cell_num ⟨key, value⟩).length =
      NODE_MAX_CELLS + 1 := by
    rw [List.length_insertIdx]
    simp only [hcount]
    omega
  have hsortedTake : (((L.key_values.insertIdx cell_num ⟨key, value⟩).take
      LEAF_NODE_LEFT_SPLIT_COUNT).map KV.key).Pairwise (· < ·) := by
    rw [List.map_take]
    exact hsorted.sublist (List.take_sublist _ _)
  have htakeNe : (L.key_values.insertIdx cell_num ⟨key, value⟩).take
      LEAF_NODE_LEFT_SPLIT_COUNT ≠ [] := by
    have : ((L.key_values.insertIdx cell_num ⟨key, value⟩).take
        LEAF_NODE_LEFT_SPLIT_COUNT).length = 7 := by
      rw [List.length_take]
      omega
    intro hcon
    rw [hcon] at this
    simp at this
  obtain ⟨sep, hsep, hsepmax⟩ :=
    sorted_key_le_getLast _ hsortedTake htakeNe
  have hsepkey : BTreeLeafNode.max_key
      { node_type := L.node_type, is_root := 0, parent := L.parent,
        num_cells := LEAF_NODE_LEFT_SPLIT_COUNT,
        key_values := (L.key_values.insertIdx cell_num ⟨key, value⟩).take
          LEAF_NODE_LEFT_SPLIT_COUNT } = sep.key := by
    unfold BTreeLeafNode.max_key
    dsimp only
    rw [hsep]
  have hgp1 : p.getPage page_num = (p, some (BTreeNode.Leaf L)) := by
    unfold Pager.getPage
    rw [hpage]
  have e1 : (page_num = p.num_pages) = False := eq_false (by omega)
  have e2 : (page_num = p.num_pages + 1) = False := eq_false (by omega)
  have e3 : (p.num_pages = page_num) = False := eq_false (by omega)
  have e4 : (p.num_pages = p.num_pages + 1) = False := eq_false (by omega)
  have e5 : (p.num_pages + 1 = p.num_pages) = False := eq_false (by omega)
  have e6 : (p.num_pages + 1 = page_num) = False := eq_false (by omega)
  refine ⟨{ pages := fun m =>
      if m = p.num_pages then
        some (BTreeNode.Leaf
          { node_type := NodeType.Leaf, is_root := 0,
            parent := p.num_pages + 1,
            num_cells := LEAF_NODE_RIGHT_SPLIT_COUNT,
            key_values := (L.key_values.insertIdx cell_num ⟨key, value⟩).drop
              LEAF_NODE_LEFT_SPLIT_COUNT })
      else if m = page_num then
        some (BTreeNode.Leaf
          { node_type := L.node_type, is_root := 0,
            parent := p.num_pages + 1,
            num_cells := LEAF_NODE_LEFT_SPLIT_COUNT,
            key_values := (L.key_values.insertIdx cell_num ⟨key, value⟩).take
              LEAF_NODE_LEFT_SPLIT_COUNT })
      else if m = p.num_pages + 1 then
        some (BTreeNode.Internal
          { node_type := NodeType.Internal,
            is_root := L.is_root, parent := L.parent, num_keys := 1,
            right_child := p.num_pages,
            key_children := [⟨page_num, sep.key⟩] })
      else p.pages m,
            file := p.file,
            num_pages := p.num_pages + 2 }, sep, ?_, hclen, ?_,
    ?_, ?_, hsep, ?_, hsepmax, ?_⟩
  · unfold Pager.splitAndInsert
    rw [hgp1]
    simp only [BTreeNode.is_root, BTreeNode.get_parent,
      BTreeLeafNode.insert_at, Pager.newPageNum]
    unfold splitParentStep
    rw [if_pos hroot]
    simp only [Pager.newPageNum, Pager.newInternalPageMut,
      Pager.setPage_num_pages, Pager.setPage_file, BTreeInternalNode.new]
    rw [internalInsert_empty _ rfl rfl]
    simp only [Pager.getPage, Pager.setPage_pages, Pager.setPage_num_pages,
      Pager.setPage_file, e1, e2, e3, e4, if_false, eq_self_iff_true,
      if_true, hpage, hfresh, hfile, fromBytes_padToPage_nil,
      Option.bind_eq_bind, Option.some_bind]
    rw [if_pos hroot, hsepkey]
    congr 1
    rw [Prod.mk.injEq]
    refine ⟨?_, rfl⟩
    simp only [Pager.setPage]
    rw [Pager.mk.injEq]
    refine ⟨funext fun m => ?_, rfl, rfl⟩
    by_cases hm1 : m = p.num_pages
    · simp [hm1]
    · by_cases hm2 : m = page_num
      · simp [hm2, e1]
      · by_cases hm3 : m = p.num_pages + 1
        · simp [hm3, e5, e6]
        · simp [hm1, hm2, hm3]
  · rfl
  · simp only [e1, e2, if_false, eq_self_iff_true, if_true]
  · simp only [eq_self_iff_true, if_true]
  · simp only [e5, e6, if_false, eq_self_iff_true, if_true]
  · intro m hm1 hm2 hm3
    simp only [if_neg hm1, if_neg hm2, if_neg hm3]

theorem claim_C4_root_leaf_split_witness :
    cPagerC.pages 0 = some (BTreeNode.Leaf cLeaf13) ∧
    cLeaf13.is_root > 0 ∧
    cLeaf13.key_values.length = NODE_MAX_CELLS ∧
    (∃ p' sep,
      cPagerC.splitAndInsert 0 13 100 (mkRow 100) =
        some (p', some (cPagerC.num_pages + 1)) ∧
      (cLeaf13.key_values.insertIdx 13 ⟨100, mkRow 100⟩).length =
        NODE_MAX_CELLS + 1 ∧
      p'.num_pages = cPagerC.num_pages + 2 ∧
      p'.pages 0 = some (BTreeNode.Leaf
        { node_type := cLeaf13.node_type, is_root := 0,
          parent := cPagerC.num_pages + 1,
          num_cells := LEAF_NODE_LEFT_SPLIT_COUNT,
          key_values := (cLeaf13.key_values.insertIdx 13
            ⟨100, mkRow 100⟩).take LEAF_NODE_LEFT_SPLIT_COUNT }) ∧
      p'.pages cPagerC.num_pages = some (BTreeNode.Leaf
        { node_type := NodeType.Leaf, is_root := 0,
          parent := cPagerC.num_pages + 1,
          num_cells := LEAF_NODE_RIGHT_SPLIT_COUNT,
          key_values := (cLeaf13.key_values.insertIdx 13
            ⟨100, mkRow 100⟩).drop LEAF_NODE_LEFT_SPLIT_COUNT }) ∧
      ((cLeaf13.key_values.insertIdx 13 ⟨100, mkRow 100⟩).take
        LEAF_NODE_LEFT_SPLIT_COUNT).getLast? = some sep ∧
      p'.pages (cPagerC.num_pages + 1) = some (BTreeNode.Internal
        { node_type := NodeType.Internal, is_root := cLeaf13.is_root,
          parent := cLeaf13.parent, num_keys := 1,
          right_child := cPagerC.num_pages,
          key_children := [⟨0, sep.key⟩] }) ∧
      (∀ kv ∈ (cLeaf13.key_values.insertIdx 13 ⟨100, mkRow 100⟩).take
        LEAF_NODE_LEFT_SPLIT_COUNT, kv.key ≤ sep.key) ∧
      (∀ m, m ≠ 0 → m ≠ cPagerC.num_pages → m ≠ cPagerC.num_pages + 1 →
        p'.pages m = cPagerC.pages m)) :=
  ⟨by decide, by decide, by decide,
   claim_C4_root_leaf_split cPagerC 0 13 100 (mkRow 100) cLeaf13
     (by decide) (by decide) (by decide) (by decide) (by decide)
     (by decide) (by decide) (by decide) rfl⟩

/-- Claim C6 counterexample: the claim as stated quantifies over every
table whose target leaf contains the key, but on a FULL root leaf
(`NODE_MAX_CELLS` = 13 cells — reachable by 13 plain inserts, since this
`execute_insert` never splits) that contains the key being inserted, the
`is_max` check at the top of `execute_insert` returns `TableFull` before
the duplicate check ever runs, so the result is not `DuplicateKey`. -/
theorem claim_C6_counterexample :
    cTableF.pager.pages cTableF.root_page_num =
      some (BTreeNode.Leaf cLeaf13) ∧
    cLeaf13.num_cells = NODE_MAX_CELLS ∧
    (3 : Nat) ∈ cLeaf13.key_values.map KV.key ∧
    (mkRow 3).id = 3 ∧
    execute_insert
      { st_type := StatementType.Insert, row_to_insert := some (mkRow 3) }
      cTableF =
      some (Except.error ExecuteResult.TableFull, cTableF) :=
  ⟨rfl, by decide, by decide, by decide, rfl⟩
